import Mathlib

/-!
Verification of the metrics engine of the js-plugin server
(src/js-plugin/server.js): a shallow embedding of the cognitive-complexity
scorer, function-name resolution, archive root detection, per-file batch
analysis, and the inline-code report flattening, together with theorems
about their behaviour.
-/

set_option maxHeartbeats 1000000

namespace JsPlugin

/-- Loop statement kinds handled identically by the scorer
(`ForStatement`, `ForInStatement`, `ForOfStatement`, `WhileStatement`,
`DoWhileStatement` in server.js lines 220-224). -/
inductive LoopKind where
  | forStmt
  | forInStmt
  | forOfStmt
  | whileStmt
  | doWhileStmt
deriving Repr, DecidableEq

/-- Babel-style syntax-tree nodes, restricted to the kinds the scorer in
`calculateCognitiveComplexity` dispatches on.  Children are listed in the
order Babel's traversal visits them.  `block` stands for any other node
with children (BlockStatement, ExpressionStatement, ReturnStatement, ...):
the scorer's visitor fires no rule on those kinds and just descends.
`ident` stands for any childless node. -/
inductive Node where
  | ident (name : String)
  | ifStmt (test : Node) (consequent : Node) (alternate : Option Node)
  | switchStmt (discriminant : Node) (cases : List Node)
  | switchCase (test : Option Node) (consequent : List Node)
  | loop (kind : LoopKind) (children : List Node)
  | catchClause (children : List Node)
  | logical (op : String) (left : Node) (right : Node)
  | conditional (test : Node) (consequent : Node) (alternate : Node)
  | call (callee : Node) (args : List Node)
  | breakStmt (label : Option String)
  | continueStmt (label : Option String)
  | funcNode (children : List Node)
  | block (children : List Node)
deriving Repr

/-- `node.type === 'IfStatement'` (server.js line 208). -/
def Node.isIfStatement : Node → Bool
  | .ifStmt _ _ _ => true
  | _ => false

/-- The direct self-recursion test of the visitor (server.js lines
180-185): `functionName` is truthy (non-null, non-empty) and the callee is
a bare Identifier whose name equals `functionName`. -/
def recursionHit (fname : Option String) (callee : Node) : Bool :=
  match fname, callee with
  | some f, .ident nm => decide (f ≠ "") && decide (nm = f)
  | _, _ => false

mutual
/-- One node of the enter/exit traversal of `calculateCognitiveComplexity`
(server.js lines 170-259).  The state is `(complexity, nesting)`.
`fname` is the `functionName` argument; `altOfIf` records whether this node
sits at key `alternate` of an IfStatement parent (`path.key === 'alternate'
&& path.parentPath.isIfStatement()`); `parLogOp` is `some op` when the
parent node is a LogicalExpression with operator `op`.  Nested function
nodes are skipped (`path.skip()`), so they contribute nothing. -/
def visit (fname : Option String) (altOfIf : Bool) (parLogOp : Option String) :
    Node → Int × Int → Int × Int
  | .ident _, st => st
  | .funcNode _, st => st
  | .breakStmt lbl, st => if lbl.isSome then (st.1 + 1, st.2) else st
  | .continueStmt lbl, st => if lbl.isSome then (st.1 + 1, st.2) else st
  | .call callee args, st =>
      -- direct self-recursion: callee is a bare identifier equal to
      -- functionName (and functionName is truthy, i.e. non-null, non-empty)
      let st1 := if recursionHit fname callee then (st.1 + 1, st.2) else st
      visitList fname args (visit fname false none callee st1)
  | .ifStmt test cons alt, st =>
      let isElseIf := altOfIf
      -- else-if: complexity += 1 + (nesting - 1), nesting unchanged;
      -- otherwise: complexity += 1 + nesting, nesting++
      let entered : Int × Int :=
        if isElseIf then (st.1 + 1 + (st.2 - 1), st.2)
        else (st.1 + 1 + st.2, st.2 + 1)
      -- a non-if alternate (a trailing plain else) adds a flat +1
      let entered1 : Int × Int :=
        match alt with
        | some a => if a.isIfStatement then entered else (entered.1 + 1, entered.2)
        | none => entered
      let st1 := visit fname false none test entered1
      let st2 := visit fname false none cons st1
      let st3 :=
        match alt with
        | some a => visit fname true none a st2
        | none => st2
      -- exit handler: nesting-- unless this node was an else-if
      (st3.1, if isElseIf then st3.2 else st3.2 - 1)
  | .switchStmt disc cases, st =>
      -- switch: +1 nesting level, +0 complexity itself; exit: nesting--
      let st1 := visit fname false none disc (st.1, st.2 + 1)
      let st2 := visitList fname cases st1
      (st2.1, st2.2 - 1)
  | .switchCase test body, st =>
      -- every case / default label adds a flat +1
      let st1 :=
        match test with
        | some t => visit fname false none t (st.1 + 1, st.2)
        | none => (st.1 + 1, st.2)
      visitList fname body st1
  | .loop _ children, st =>
      let st1 := visitList fname children (st.1 + 1 + st.2, st.2 + 1)
      (st1.1, st1.2 - 1)
  | .catchClause children, st =>
      let st1 := visitList fname children (st.1 + 1 + st.2, st.2 + 1)
      (st1.1, st1.2 - 1)
  | .conditional test cons alt, st =>
      let st1 := visit fname false none test (st.1 + 1 + st.2, st.2 + 1)
      let st2 := visit fname false none cons st1
      let st3 := visit fname false none alt st2
      (st3.1, st3.2 - 1)
  | .logical op l r, st =>
      -- flat +1 for &&, ||, ?? unless the parent is a LogicalExpression
      -- with the identical operator
      let st0 :=
        if (op = "&&" ∨ op = "||" ∨ op = "??") ∧ parLogOp ≠ some op then
          (st.1 + 1, st.2)
        else st
      visit fname false (some op) r (visit fname false (some op) l st0)
  | .block children, st => visitList fname children st
/-- Visit a list of sibling child nodes in order.  Siblings inside a child
list are never the `alternate` of an IfStatement and never have a
LogicalExpression parent. -/
def visitList (fname : Option String) : List Node → Int × Int → Int × Int
  | [], st => st
  | x :: xs, st => visitList fname xs (visit fname false none x st)
end

/-- `calculateCognitiveComplexity(funcPath, baseNesting, functionName)`
(server.js lines 156-262): `funcPath.traverse` visits the strict
descendants of the function node, starting from `complexity = 0` and
`nesting = baseNesting`, and the function returns the final complexity.
`funcChildren` are the child nodes of the function node. -/
def calculateCognitiveComplexity (funcChildren : List Node) (baseNesting : Int)
    (functionName : Option String) : Int :=
  (visitList functionName funcChildren (0, baseNesting)).1

mutual
/-- `noControlFlow fname node = true` when the subtree of `node` contains
no construct on which any rule of the scorer's visitor can fire: no
if / switch / switch-case / loop / catch / ternary, no logical operator,
no labelled break or continue, and no call whose callee is the bare
identifier `fname` (direct self-recursion). -/
def noControlFlow (fname : Option String) : Node → Bool
  | .ident _ => true
  | .ifStmt _ _ _ => false
  | .switchStmt _ _ => false
  | .switchCase _ _ => false
  | .loop _ _ => false
  | .catchClause _ => false
  | .logical _ _ _ => false
  | .conditional _ _ _ => false
  | .call callee args =>
      !recursionHit fname callee
      && noControlFlow fname callee && noControlFlowList fname args
  | .breakStmt lbl => !lbl.isSome
  | .continueStmt lbl => !lbl.isSome
  | .funcNode children => noControlFlowList fname children
  | .block children => noControlFlowList fname children
/-- `noControlFlow` over a list of children. -/
def noControlFlowList (fname : Option String) : List Node → Bool
  | [] => true
  | x :: xs => noControlFlow fname x && noControlFlowList fname xs
end

/-! ## Function-name resolution (server.js lines 44-55) -/

/-- The binding target of a VariableDeclarator (`par.node.id`): either a
plain Identifier or some other pattern (destructuring etc.). -/
inductive BindingTarget where
  | identPat (name : String)
  | otherPat
deriving Repr, DecidableEq

/-- The key of an object property or method: an Identifier key or any
other key kind (computed, string literal, ...). -/
inductive PropKey where
  | identKey (name : String)
  | otherKey
deriving Repr, DecidableEq

/-- The immediate syntactic parent of a function-like node, as far as name
resolution inspects it. -/
inductive FnParent where
  | variableDeclarator (id : BindingTarget)
  | objectProperty (key : PropKey)
  | other
deriving Repr, DecidableEq

/-- Name resolution from `calculateMetrics` (server.js lines 44-55):
start from `fnNode.id?.name ?? 'anonymous'`; when the result is the string
`"anonymous"`, fall back to the variable-declarator parent's identifier,
then to the object-property parent's identifier key, then (for a class or
object method) to the node's own identifier key. -/
def resolveFunctionName (fnId : Option String) (parent : FnParent)
    (isMethod : Bool) (methodKey : Option PropKey) : String :=
  let functionName := fnId.getD "anonymous"
  if functionName = "anonymous" then
    match parent, isMethod, methodKey with
    | .variableDeclarator (.identPat n), _, _ => n
    | .objectProperty (.identKey n), _, _ => n
    | _, true, some (.identKey n) => n
    | _, _, _ => "anonymous"
  else functionName

/-- Modelled from the spec (section 4.1, name resolution): priority order
(1) the node's own declared identifier if present; (2) else the
variable-binding parent's simple identifier, else the object-property
parent's identifier key, else the method's own key identifier;
(3) otherwise the literal string "anonymous".  Used to compare the spec's
stated rule with the code's `resolveFunctionName`. -/
def resolveFunctionNameSpec (fnId : Option String) (parent : FnParent)
    (isMethod : Bool) (methodKey : Option PropKey) : String :=
  match fnId with
  | some n => n
  | none =>
    match parent, isMethod, methodKey with
    | .variableDeclarator (.identPat n), _, _ => n
    | .objectProperty (.identKey n), _, _ => n
    | _, true, some (.identKey n) => n
    | _, _, _ => "anonymous"

/-! ## Archive root detection (server.js lines 294-328) -/

/-- One archive entry as adm-zip reports it. -/
structure ZipEntry where
  entryName : String
  isDirectory : Bool
deriving Repr, DecidableEq

/-- Drop leading '/' characters. -/
def dropSlashes : List Char → List Char
  | '/' :: rest => dropSlashes rest
  | l => l

/-- `entryName.replace(/^\.\/+/, '')`: remove one leading "." followed by
one or more "/". -/
def stripLeadingDotSlash (s : String) : String :=
  match s.data with
  | '.' :: '/' :: rest => String.mk (dropSlashes rest)
  | _ => s

/-- `topLevelName(entryName)` (server.js lines 294-299): normalize and take
the first component before '/' (`clean.split('/')[0] || ''`). -/
def topLevelName (entryName : String) : String :=
  String.mk ((stripLeadingDotSlash entryName).data.takeWhile (· ≠ '/'))

/-- `entryName.includes('/')`. -/
def containsSlash (s : String) : Bool :=
  s.data.any (· = '/')

/-- `counts.set(top, ...)` restricted to what is observed downstream: the
Map's key list in insertion order (`counts.size` and `counts.keys()`;
the stored counts themselves are never read). -/
def insertTop (keys : List String) (top : String) : List String :=
  if top ∈ keys then keys else keys ++ [top]

/-- One iteration of the entry loop of `detectZipRootFolder` (server.js
lines 306-316).  The accumulator is `(keys, hasTopLevelFiles)`. -/
def rootStep (acc : List String × Bool) (e : ZipEntry) : List String × Bool :=
  if e.entryName = "" ∨ e.isDirectory then acc
  else
    let top := topLevelName e.entryName
    if top = "" ∨ top = "__MACOSX" then acc
    else
      (insertTop acc.1 top, acc.2 || !containsSlash e.entryName)

/-- `detectZipRootFolder(zip)` (server.js lines 301-328): scan all entries;
if any counted entry sits directly at top level (no '/' in its name) there
is no single root; else if exactly one distinct top-level name was
counted, that name (the Map's only key) is the root; otherwise `null`. -/
def detectZipRootFolder (entries : List ZipEntry) : Option String :=
  let r := entries.foldl rootStep ([], false)
  if r.2 then none
  else
    match r.1 with
    | [k] => some k
    | _ => none

/-! ## Per-file analysis results (server.js lines 18-101, 334-350, 435-485) -/

/-- One discovered function's record, as pushed on `metrics.functions`
(server.js lines 86-92). -/
structure FunctionMetrics where
  name : String
  NLOC : Nat
  CC : Int
  lineStart : Option Nat
  lineEnd : Option Nat
deriving Repr, DecidableEq

/-- The metrics record built by `calculateMetrics` (server.js lines 28-33). -/
structure Metrics where
  LOC : Nat
  NLOC : Nat
  NOF : Nat
  functions : List FunctionMetrics
deriving Repr, DecidableEq

/-- The two-variant per-file result: `{ fileName, metrics }` on success or
`{ fileName, error }` on failure — never both. -/
inductive FileResult where
  | ok (fileName : String) (metrics : Metrics)
  | err (fileName : String) (errMsg : String)
deriving Repr, DecidableEq

/-- `analyzeFileAt(filePath, rootPathForRel)` (server.js lines 334-350),
with reading+parsing abstracted as `analyze : String → Except String
Metrics` (the external parser may throw; `calculateMetrics` rethrows): the
try/catch at the per-file boundary converts a failure into the error
variant of `FileResult`. -/
def analyzeFileAt (analyze : String → Except String Metrics)
    (fileName code : String) : FileResult :=
  match analyze code with
  | .ok m => .ok fileName m
  | .error e => .err fileName e

/-- The body of `processDirectory` (server.js lines 377-395) restricted to
its per-file behaviour: each discovered code file is analyzed
independently and its result pushed, in discovery order. -/
def processFiles (analyze : String → Except String Metrics)
    (files : List (String × String)) : List FileResult :=
  files.map fun f => analyzeFileAt analyze f.1 f.2

/-! ## Inline-code report flattening (server.js lines 435-485) -/

/-- One flattened per-function record of the `/analyze-code` response
(server.js lines 454-463). -/
structure FlatFunction where
  cyclomatic_complexity : Int
  nloc : Nat
  token_count : Nat
  name : String
  long_name : String
  start_line : Option Nat
  end_line : Nat
  max_nesting_depth : Nat
deriving Repr, DecidableEq

/-- The flattened `/analyze-code` response (server.js lines 469-478). -/
structure FlatReport where
  filename : String
  language : String
  total_loc : Nat
  total_nloc : Nat
  function_count : Nat
  complexity_avg : ℚ
  complexity_max : Int
  functions : List FlatFunction
deriving Repr, DecidableEq

/-- `parseFloat(x.toFixed(2))`: rounding to 2 decimal places, modelled
over the rationals. -/
def roundTo2 (q : ℚ) : ℚ := (round (q * 100) : ℤ) / 100

/-- The successful branch of the `/analyze-code` handler (server.js lines
443-478): flatten `babelMetrics` into the response, accumulating
`complexity_sum` and `complexity_max` (initially 0) over the functions in
order, and computing `complexity_avg` only when `function_count > 0`. -/
def analyzeCode (filename : String) (babelMetrics : Metrics) : FlatReport :=
  let functions : List FlatFunction := babelMetrics.functions.map fun f =>
    { cyclomatic_complexity := f.CC
      nloc := f.NLOC
      token_count := 0
      name := f.name
      long_name := f.name
      start_line := f.lineStart
      end_line := 0
      max_nesting_depth := 0 }
  let complexity_sum : Int := babelMetrics.functions.foldl (fun s f => s + f.CC) 0
  let complexity_max : Int :=
    babelMetrics.functions.foldl (fun m f => if f.CC > m then f.CC else m) 0
  let function_count := functions.length
  let complexity_avg : ℚ :=
    if function_count > 0 then
      roundTo2 ((complexity_sum : ℚ) / (function_count : ℚ))
    else 0
  { filename := filename
    language := "javascript"
    total_loc := babelMetrics.LOC
    total_nloc := babelMetrics.NLOC
    function_count := function_count
    complexity_avg := complexity_avg
    complexity_max := complexity_max
    functions := functions }

/-! ## Helper lemmas -/

/-- Subtrees without control-flow constructs leave the visitor state
(complexity and nesting) unchanged, stated with an explicit size bound so
that it can be proved by strong induction over the nested tree type. -/
theorem noCF_visit_all (k : Nat) :
    (∀ (node : Node), sizeOf node ≤ k →
       ∀ (fname : Option String) (a : Bool) (p : Option String) (st : Int × Int),
         noControlFlow fname node = true → visit fname a p node st = st) ∧
    (∀ (l : List Node), sizeOf l ≤ k →
       ∀ (fname : Option String) (st : Int × Int),
         noControlFlowList fname l = true → visitList fname l st = st) := by
  induction k with
  | zero =>
    constructor
    · intro node hsz
      exfalso
      cases node <;> simp at hsz
    · intro l hsz
      exfalso
      cases l <;> simp at hsz
  | succ k ih =>
    constructor
    · intro node hsz fname a p st h
      match node with
      | .ident nm => simp [visit]
      | .funcNode cs => simp [visit]
      | .breakStmt lbl =>
          simp [noControlFlow] at h
          simp [visit, h]
      | .continueStmt lbl =>
          simp [noControlFlow] at h
          simp [visit, h]
      | .ifStmt t c alt => simp [noControlFlow] at h
      | .switchStmt d cs => simp [noControlFlow] at h
      | .switchCase t b => simp [noControlFlow] at h
      | .loop lk cs => simp [noControlFlow] at h
      | .catchClause cs => simp [noControlFlow] at h
      | .logical op l r => simp [noControlFlow] at h
      | .conditional t c a2 => simp [noControlFlow] at h
      | .call callee args =>
          rw [noControlFlow] at h
          simp only [Bool.and_eq_true, Bool.not_eq_true'] at h
          obtain ⟨⟨h1, h2⟩, h3⟩ := h
          have hsz' : sizeOf (Node.call callee args) ≤ k + 1 := hsz
          simp at hsz'
          rw [visit]
          simp only [h1, Bool.false_eq_true, if_false]
          rw [ih.1 callee (by omega) fname false none st h2]
          exact ih.2 args (by omega) fname st h3
      | .block cs =>
          rw [noControlFlow] at h
          have hsz' : sizeOf (Node.block cs) ≤ k + 1 := hsz
          simp at hsz'
          rw [visit]
          exact ih.2 cs (by omega) fname st h
    · intro l hsz fname st h
      match l with
      | [] => simp [visitList]
      | x :: xs =>
          rw [noControlFlowList] at h
          simp only [Bool.and_eq_true] at h
          have hsz' : sizeOf (x :: xs) ≤ k + 1 := hsz
          simp at hsz'
          rw [visitList]
          rw [ih.1 x (by omega) fname false none st h.1]
          exact ih.2 xs (by omega) fname st h.2

/-- A chain of `k + 1` if statements linked through their `alternate`
branches (`if / else if / else if / ...`), with trivial tests and bodies
and no final plain else. -/
def elseIfChain : Nat → Node
  | 0 => .ifStmt (.ident "y") (.block []) none
  | k + 1 => .ifStmt (.ident "y") (.block []) (some (elseIfChain k))

/-- Entered as the `alternate` of an enclosing if, a chain of `k + 1`
else-ifs charges `1 + (nesting - 1)` per link (that is, `nesting` per
link) and leaves the nesting counter untouched. -/
theorem visit_elseIfChain (fn : Option String) (k : Nat) (c n : Int) :
    visit fn true none (elseIfChain k) (c, n) = (c + ((k : Int) + 1) * n, n) := by
  induction k generalizing c with
  | zero =>
      simp [elseIfChain, visit, visitList, Prod.ext_iff]
  | succ k ihk =>
      have hIf : (elseIfChain k).isIfStatement = true := by
        cases k <;> simp [elseIfChain, Node.isIfStatement]
      rw [elseIfChain, visit]
      simp only [hIf, if_true, if_pos, visit, visitList, ihk]
      simp [Prod.ext_iff]
      ring

/-- A left-nested run of `k + 2` operands joined by `&&`
(`a && b`, `a && b && c`, ...): `k + 1` LogicalExpression nodes. -/
def andRun : Nat → Node
  | 0 => .logical "&&" (.ident "a") (.ident "b")
  | k + 1 => .logical "&&" (andRun k) (.ident "c")

/-- Inside a parent LogicalExpression with the identical operator, a run
of `&&` contributes nothing. -/
theorem visit_andRun_inner (fn : Option String) (k : Nat) (st : Int × Int) :
    visit fn false (some "&&") (andRun k) st = st := by
  induction k generalizing st with
  | zero => simp [andRun, visit]
  | succ k ihk => rw [andRun, visit]; simp [visit, ihk]

/-- At the outermost node of the run (parent not a LogicalExpression), a
whole run of `&&` contributes exactly one flat increment, whatever its
length, and does not change nesting. -/
theorem visit_andRun_outer (fn : Option String) (k : Nat) (st : Int × Int) :
    visit fn false none (andRun k) st = (st.1 + 1, st.2) := by
  cases k with
  | zero => simp [andRun, visit]
  | succ k => rw [andRun, visit]; simp [visit, visit_andRun_inner]

/-! ## Claim theorems -/

/-- C1: `if (x) {} else if (y) {}` scores exactly 2 at baseNesting 0; in
general a chain of `k + 1` if/else-if links scores `k + 1` (linear, not
compounding), and an else-if entered as the `alternate` of an enclosing if
is charged `1 + (nesting - 1)` per link and leaves the nesting counter
unchanged (no increment on enter, no decrement on exit). -/
theorem c1_elseif_scores_linearly :
    calculateCognitiveComplexity
      [.ifStmt (.ident "x") (.block [])
        (some (.ifStmt (.ident "y") (.block []) none))] 0 (some "testElseIf") = 2
    ∧ (∀ (k : Nat) (fn : Option String),
        calculateCognitiveComplexity [elseIfChain k] 0 fn = (k : Int) + 1)
    ∧ (∀ (fn : Option String) (k : Nat) (c n : Int),
        visit fn true none (elseIfChain k) (c, n) = (c + ((k : Int) + 1) * n, n)) := by
  refine ⟨?_, ?_, fun fn k c n => visit_elseIfChain fn k c n⟩
  · simp [calculateCognitiveComplexity, visitList, visit, Node.isIfStatement]
  · intro k fn
    cases k with
    | zero => simp [calculateCognitiveComplexity, elseIfChain, visitList, visit]
    | succ j =>
        have hIf : (elseIfChain j).isIfStatement = true := by
          cases j <;> simp [elseIfChain, Node.isIfStatement]
        rw [calculateCognitiveComplexity, visitList, visitList, elseIfChain, visit]
        simp only [hIf, if_true, if_pos, visit, visitList]
        rw [visit_elseIfChain]
        push_cast
        ring

/-- C2: nesting compounds for genuinely nested ifs: `if (x) { if (y) {} }`
scores exactly 3 at baseNesting 0 (outer if charged 1 + 0 and nesting
incremented before the inner if, which is charged 1 + 1), and a
surrounding non-if `else` adds a further flat +1, giving 4. -/
theorem c2_nested_if_scores_three :
    calculateCognitiveComplexity
      [.ifStmt (.ident "x") (.block [.ifStmt (.ident "y") (.block []) none]) none]
      0 none = 3
    ∧ calculateCognitiveComplexity
      [.ifStmt (.ident "x") (.block [.ifStmt (.ident "y") (.block []) none])
        (some (.block []))] 0 none = 4 := by
  constructor <;>
    simp [calculateCognitiveComplexity, visitList, visit, Node.isIfStatement]

/-- C3: a run of the same logical operator counts once, at the outermost
node of the run: `if (a && b && c) {}` scores exactly 2; in general any
left-nested `&&` run contributes exactly one flat increment when its
parent is not a LogicalExpression, and contributes nothing when its
parent is a LogicalExpression with the identical operator. -/
theorem c3_logical_run_counts_once :
    calculateCognitiveComplexity
      [.ifStmt (.logical "&&" (.logical "&&" (.ident "a") (.ident "b")) (.ident "c"))
        (.block []) none] 0 none = 2
    ∧ (∀ (k : Nat) (fn : Option String),
        calculateCognitiveComplexity [.ifStmt (andRun k) (.block []) none] 0 fn = 2)
    ∧ (∀ (fn : Option String) (k : Nat) (st : Int × Int),
        visit fn false none (andRun k) st = (st.1 + 1, st.2))
    ∧ (∀ (fn : Option String) (k : Nat) (st : Int × Int),
        visit fn false (some "&&") (andRun k) st = st) := by
  refine ⟨?_, ?_, fun fn k st => visit_andRun_outer fn k st,
    fun fn k st => visit_andRun_inner fn k st⟩
  · simp [calculateCognitiveComplexity, visitList, visit]
  · intro k fn
    rw [calculateCognitiveComplexity, visitList, visitList, visit]
    simp [visit_andRun_outer, visit, visitList]

/-- C4: a Switch node adds 0 complexity itself but opens one nesting level
for its children (undone on exit), while every SwitchCase — with a test or
a default — adds a flat +1: `switch(x){case 1: break; default: break;}`
scores exactly 2; an if inside a case is charged one nesting level deeper
while an if after the switch is charged at the original level (total 4 in
the second body); and a switch with no cases contributes nothing and
restores nesting. -/
theorem c4_switch_cases_flat :
    calculateCognitiveComplexity
      [.switchStmt (.ident "x")
        [.switchCase (some (.ident "one")) [.breakStmt none],
         .switchCase none [.breakStmt none]]] 0 none = 2
    ∧ calculateCognitiveComplexity
      [.switchStmt (.ident "x")
        [.switchCase (some (.ident "one")) [.ifStmt (.ident "y") (.block []) none]],
       .ifStmt (.ident "z") (.block []) none] 0 none = 4
    ∧ (∀ (fn : Option String) (c n : Int),
        visit fn false none (.switchStmt (.ident "x") []) (c, n) = (c, n)) := by
  refine ⟨?_, ?_, ?_⟩
  · simp [calculateCognitiveComplexity, visitList, visit]
  · simp [calculateCognitiveComplexity, visitList, visit, Node.isIfStatement]
  · intro fn c n
    simp [visit, visitList]

/-- C5: a function whose subtree contains no construct any scorer rule
fires on (no if/loop/switch/case/catch/ternary, no logical operator, no
labelled break or continue, no direct self-recursive call) scores exactly
0, whatever baseNesting it is seeded with. -/
theorem c5_no_control_flow_scores_zero (children : List Node) (base : Int)
    (fn : Option String) (h : noControlFlowList fn children = true) :
    calculateCognitiveComplexity children base fn = 0 := by
  rw [calculateCognitiveComplexity,
    (noCF_visit_all (sizeOf children)).2 children le_rfl fn (0, base) h]

/-- Witness for C5: a concrete control-flow-free body (a block with
identifiers, a call to a different function `g`, and unlabelled break and
continue) scores 0 for function `f` even at baseNesting 5. -/
theorem c5_witness :
    calculateCognitiveComplexity
      [.block [.ident "a", .call (.ident "g") [.ident "b"], .breakStmt none],
       .continueStmt none] 5 (some "f") = 0 :=
  c5_no_control_flow_scores_zero _ 5 (some "f")
    (by simp [noControlFlowList, noControlFlow, recursionHit])

/-- C6 counterexample: a named function expression whose own identifier is
literally `anonymous` bound to a variable `foo` (`const foo = function
anonymous() {}`).  The claim's priority order uses the node's own declared
identifier, giving "anonymous"; the code's sentinel comparison
(`functionName === 'anonymous'`) instead falls through to the
variable-declarator parent and gives "foo". -/
theorem c6_counterexample :
    resolveFunctionName (some "anonymous")
        (.variableDeclarator (.identPat "foo")) false none = "foo"
    ∧ resolveFunctionNameSpec (some "anonymous")
        (.variableDeclarator (.identPat "foo")) false none = "anonymous"
    ∧ ("foo" : String) ≠ "anonymous" :=
  ⟨rfl, rfl, by decide⟩

/-- C6 (amended): name resolution follows the claimed priority order —
own declared identifier, then variable-binding parent's identifier, then
object-property parent's identifier key, then the method's own identifier
key, else "anonymous" — except that an own identifier literally named
"anonymous" is treated as absent (it collides with the code's sentinel
value and falls through to the parent-based steps).  The claim's concrete
examples all hold. -/
theorem c6_name_resolution_amended :
    (∀ (fnId : Option String) (parent : FnParent) (isMethod : Bool)
       (methodKey : Option PropKey),
        resolveFunctionName fnId parent isMethod methodKey =
          resolveFunctionNameSpec (if fnId = some "anonymous" then none else fnId)
            parent isMethod methodKey)
    ∧ resolveFunctionName none (.variableDeclarator (.identPat "foo")) false none = "foo"
    ∧ resolveFunctionName none .other true (some (.identKey "foo")) = "foo"
    ∧ resolveFunctionName none .other false none = "anonymous"
    ∧ resolveFunctionName (some "declared") .other false none = "declared" := by
  refine ⟨?_, rfl, rfl, rfl, rfl⟩
  intro fnId parent isMethod methodKey
  rcases fnId with _ | nm
  · rfl
  · by_cases h : nm = "anonymous"
    · subst h; rfl
    · simp [resolveFunctionName, resolveFunctionNameSpec, h, Option.getD]

/-! ## Lemmas about root detection -/

/-- An archive entry in the shape root detection is about: a non-directory
file entry with a nonempty name whose top-level segment is meaningful
(nonempty and not the macOS metadata folder the loop skips). -/
def cleanEntry (e : ZipEntry) : Prop :=
  e.isDirectory = false ∧ e.entryName ≠ "" ∧
    topLevelName e.entryName ≠ "" ∧ topLevelName e.entryName ≠ "__MACOSX"

theorem rootStep_clean (acc : List String × Bool) (e : ZipEntry)
    (h : cleanEntry e) :
    rootStep acc e =
      (insertTop acc.1 (topLevelName e.entryName),
       acc.2 || !containsSlash e.entryName) := by
  obtain ⟨h1, h2, h3, h4⟩ := h
  simp [rootStep, h1, h2, h3, h4]

theorem foldl_rootStep_clean (entries : List ZipEntry)
    (h : ∀ e ∈ entries, cleanEntry e) (acc : List String × Bool) :
    entries.foldl rootStep acc =
      (entries.foldl (fun ks e => insertTop ks (topLevelName e.entryName)) acc.1,
       acc.2 || entries.any (fun e => !containsSlash e.entryName)) := by
  induction entries generalizing acc with
  | nil => simp
  | cons e es ihe =>
      rw [List.foldl_cons, rootStep_clean acc e (h e (by simp)),
        ihe (fun x hx => h x (by simp [hx]))]
      simp [Bool.or_assoc]

theorem mem_insertTop_self (ks : List String) (t : String) : t ∈ insertTop ks t := by
  by_cases h : t ∈ ks <;> simp [insertTop, h]

theorem mem_insertTop_of_mem (ks : List String) (t x : String) (h : x ∈ ks) :
    x ∈ insertTop ks t := by
  by_cases ht : t ∈ ks <;> simp [insertTop, ht, h]

theorem mem_foldl_insertTop_of_mem (entries : List ZipEntry) (ks : List String)
    (x : String) (h : x ∈ ks) :
    x ∈ entries.foldl (fun ks e => insertTop ks (topLevelName e.entryName)) ks := by
  induction entries generalizing ks with
  | nil => simpa
  | cons e es ihe =>
      rw [List.foldl_cons]
      exact ihe _ (mem_insertTop_of_mem _ _ _ h)

theorem top_mem_foldl_insertTop (entries : List ZipEntry) (ks : List String)
    (e : ZipEntry) (he : e ∈ entries) :
    topLevelName e.entryName ∈
      entries.foldl (fun ks e => insertTop ks (topLevelName e.entryName)) ks := by
  induction entries generalizing ks with
  | nil => simp at he
  | cons x xs ihx =>
      rw [List.foldl_cons]
      rcases List.mem_cons.mp he with rfl | hmem
      · exact mem_foldl_insertTop_of_mem _ _ _ (mem_insertTop_self _ _)
      · exact ihx _ hmem

theorem foldl_insertTop_all_eq (entries : List ZipEntry) (s : String)
    (h : ∀ e ∈ entries, topLevelName e.entryName = s) :
    entries.foldl (fun ks e => insertTop ks (topLevelName e.entryName)) [s] = [s] := by
  induction entries with
  | nil => rfl
  | cons e es ihe =>
      rw [List.foldl_cons, h e (by simp)]
      have : insertTop [s] s = [s] := by simp [insertTop]
      rw [this]
      exact ihe fun x hx => h x (by simp [hx])

/-- C7: root detection over non-directory entries: `null` whenever some
entry name contains no '/' at all (a file directly at top level); the
unique first path segment when every entry name contains a '/' and all
first segments agree; `null` when the first segments are mixed; and the
three concrete examples of the claim. -/
theorem c7_root_detection (entries : List ZipEntry)
    (hclean : ∀ e ∈ entries, cleanEntry e) :
    ((∃ e ∈ entries, containsSlash e.entryName = false) →
        detectZipRootFolder entries = none)
    ∧ (∀ s : String, entries ≠ [] →
        (∀ e ∈ entries, containsSlash e.entryName = true) →
        (∀ e ∈ entries, topLevelName e.entryName = s) →
        detectZipRootFolder entries = some s)
    ∧ ((∀ e ∈ entries, containsSlash e.entryName = true) →
        (∃ e₁ ∈ entries, ∃ e₂ ∈ entries,
          topLevelName e₁.entryName ≠ topLevelName e₂.entryName) →
        detectZipRootFolder entries = none)
    ∧ detectZipRootFolder [⟨"root/a.js", false⟩, ⟨"root/sub/b.js", false⟩] = some "root"
    ∧ detectZipRootFolder [⟨"a.js", false⟩, ⟨"root/b.js", false⟩] = none
    ∧ detectZipRootFolder [⟨"a/x.js", false⟩, ⟨"b/y.js", false⟩] = none := by
  refine ⟨?_, ?_, ?_, rfl, rfl, rfl⟩
  · rintro ⟨e, he, hns⟩
    rw [detectZipRootFolder, foldl_rootStep_clean entries hclean]
    have hany : entries.any (fun e => !containsSlash e.entryName) = true :=
      List.any_eq_true.mpr ⟨e, he, by simp [hns]⟩
    simp [hany]
  · intro s hne hslash htops
    rw [detectZipRootFolder, foldl_rootStep_clean entries hclean]
    have hany : entries.any (fun e => !containsSlash e.entryName) = false := by
      rw [List.any_eq_false]
      intro x hx
      simp [hslash x hx]
    match entries, hne with
    | e :: es, _ =>
        have hkeys :
            (e :: es).foldl (fun ks e => insertTop ks (topLevelName e.entryName)) [] =
              [s] := by
          rw [List.foldl_cons, htops e (by simp)]
          have h0 : insertTop [] s = [s] := by simp [insertTop]
          rw [h0]
          exact foldl_insertTop_all_eq es s fun x hx => htops x (by simp [hx])
        simp [hany, hkeys]
  · rintro hslash ⟨e₁, he₁, e₂, he₂, hnetop⟩
    rw [detectZipRootFolder, foldl_rootStep_clean entries hclean]
    have hany : entries.any (fun e => !containsSlash e.entryName) = false := by
      rw [List.any_eq_false]
      intro x hx
      simp [hslash x hx]
    have h1 := top_mem_foldl_insertTop entries [] e₁ he₁
    have h2 := top_mem_foldl_insertTop entries [] e₂ he₂
    simp only [hany, Bool.or_false]
    rcases hk :
        entries.foldl (fun ks e => insertTop ks (topLevelName e.entryName)) [] with
      _ | ⟨k, _ | ⟨k₂, ks⟩⟩
    · simp [hk]
    · rw [hk] at h1 h2
      simp at h1 h2
      exact absurd (h1.trans h2.symm) hnetop
    · simp [hk]

/-- Witness for C7: the first concrete example, via the single-root branch
of the theorem. -/
theorem c7_witness :
    detectZipRootFolder [⟨"root/a.js", false⟩, ⟨"root/sub/b.js", false⟩] =
      some "root" := by
  have hclean : ∀ e ∈ ([⟨"root/a.js", false⟩, ⟨"root/sub/b.js", false⟩] :
      List ZipEntry), cleanEntry e := by
    intro e he
    simp at he
    rcases he with rfl | rfl <;> exact ⟨rfl, by decide, by decide, by decide⟩
  refine (c7_root_detection _ hclean).2.1 "root" (by simp) ?_ ?_
  · intro e he
    simp at he
    rcases he with rfl | rfl <;> decide
  · intro e he
    simp at he
    rcases he with rfl | rfl <;> decide

/-- C8: in a batch, a file whose analysis throws (parse failure) yields
the error variant of `FileResult` — carrying the file name and the error
message, never a metrics field — and every other file of the batch still
yields exactly the result it would yield on its own. -/
theorem c8_parse_failure_isolated (analyze : String → Except String Metrics)
    (files : List (String × String)) (i : Nat) (hi : i < files.length) (e : String)
    (hfail : analyze (files.get ⟨i, hi⟩).2 = .error e) :
    (processFiles analyze files)[i]? = some (.err (files.get ⟨i, hi⟩).1 e)
    ∧ (∀ (fn : String) (m : Metrics),
        (processFiles analyze files)[i]? ≠ some (.ok fn m))
    ∧ (∀ (j : Nat) (hj : j < files.length),
        (processFiles analyze files)[j]? =
          some (analyzeFileAt analyze (files.get ⟨j, hj⟩).1 (files.get ⟨j, hj⟩).2)) := by
  have hmap : ∀ (j : Nat) (hj : j < files.length),
      (processFiles analyze files)[j]? =
        some (analyzeFileAt analyze (files.get ⟨j, hj⟩).1 (files.get ⟨j, hj⟩).2) := by
    intro j hj
    rw [processFiles, List.getElem?_map, List.getElem?_eq_getElem hj]
    rfl
  simp only [List.get_eq_getElem] at hfail
  refine ⟨?_, ?_, hmap⟩
  · rw [hmap i hi]
    simp [analyzeFileAt, hfail]
  · intro fn m
    rw [hmap i hi]
    simp [analyzeFileAt, hfail]

/-- A stand-in for the external parser plus `calculateMetrics`: one
specific source string fails to parse, everything else succeeds. -/
def demoAnalyze : String → Except String Metrics := fun code =>
  if code = "function f(" then .error "Unexpected token" else .ok ⟨1, 1, 0, []⟩

/-- A two-file batch whose second file fails to parse. -/
def demoFiles : List (String × String) :=
  [("a.js", "let x = 1"), ("b.js", "function f(")]

/-- Witness for C8: in the concrete batch, the failing file yields the
error variant and the sibling file still yields its own result. -/
theorem c8_witness :
    (processFiles demoAnalyze demoFiles)[1]? = some (.err "b.js" "Unexpected token")
    ∧ (processFiles demoAnalyze demoFiles)[0]? =
        some (analyzeFileAt demoAnalyze "a.js" "let x = 1") := by
  have h := c8_parse_failure_isolated demoAnalyze demoFiles 1 (by simp [demoFiles])
    "Unexpected token" (by simp [demoAnalyze, demoFiles])
  exact ⟨by simpa [demoFiles] using h.1,
    by simpa [demoFiles] using h.2.2 0 (by simp [demoFiles])⟩

/-! ## Lemmas about the flattening folds -/

theorem foldl_add_CC (l : List FunctionMetrics) (a : Int) :
    l.foldl (fun s f => s + f.CC) a = a + (l.map (·.CC)).sum := by
  induction l generalizing a with
  | nil => simp
  | cons f fs ih => simp [ih, add_assoc]

theorem foldl_max_bounds (l : List FunctionMetrics) (a : Int) :
    a ≤ l.foldl (fun m f => if f.CC > m then f.CC else m) a ∧
    ∀ f ∈ l, f.CC ≤ l.foldl (fun m f => if f.CC > m then f.CC else m) a := by
  induction l generalizing a with
  | nil => simp
  | cons g gs ih =>
      have hstep : a ≤ (if g.CC > a then g.CC else a) := by split <;> omega
      have hg : g.CC ≤ (if g.CC > a then g.CC else a) := by split <;> omega
      constructor
      · exact le_trans hstep (ih (if g.CC > a then g.CC else a)).1
      · intro f hf
        rcases List.mem_cons.mp hf with rfl | hmem
        · exact le_trans hg (ih (if f.CC > a then f.CC else a)).1
        · exact (ih (if g.CC > a then g.CC else a)).2 f hmem

theorem foldl_max_mem (l : List FunctionMetrics) (a : Int) :
    l.foldl (fun m f => if f.CC > m then f.CC else m) a = a ∨
    ∃ f ∈ l, l.foldl (fun m f => if f.CC > m then f.CC else m) a = f.CC := by
  induction l generalizing a with
  | nil => left; rfl
  | cons g gs ih =>
      rcases ih (if g.CC > a then g.CC else a) with h | ⟨f, hf, hEq⟩
      · rw [List.foldl_cons, h]
        by_cases hc : g.CC > a
        · right; exact ⟨g, by simp, by simp [hc]⟩
        · left; simp [hc]
      · right; exact ⟨f, by simp [hf], by rw [List.foldl_cons]; exact hEq⟩

/-- C9: the inline-code report sets, per function, `cyclomatic_complexity`
to the cognitive score, `long_name` to `name`, and the placeholders
`end_line = 0`, `token_count = 0`, `max_nesting_depth = 0`; its
`complexity_avg` is the 2-decimal-rounded mean of the scores and its
`complexity_max` is their maximum. -/
theorem c9_flat_report (filename : String) (m : Metrics)
    (hpos : ∀ f ∈ m.functions, 0 ≤ f.CC) (hne : m.functions ≠ []) :
    (∀ (i : Nat) (hi : i < m.functions.length),
      (analyzeCode filename m).functions[i]? = some
        { cyclomatic_complexity := (m.functions.get ⟨i, hi⟩).CC
          nloc := (m.functions.get ⟨i, hi⟩).NLOC
          token_count := 0
          name := (m.functions.get ⟨i, hi⟩).name
          long_name := (m.functions.get ⟨i, hi⟩).name
          start_line := (m.functions.get ⟨i, hi⟩).lineStart
          end_line := 0
          max_nesting_depth := 0 })
    ∧ (analyzeCode filename m).complexity_avg =
        roundTo2 ((((m.functions.map (·.CC)).sum : Int) : ℚ) /
          (m.functions.length : ℚ))
    ∧ ((analyzeCode filename m).complexity_max ∈ m.functions.map (·.CC)
        ∧ ∀ x ∈ m.functions.map (·.CC), x ≤ (analyzeCode filename m).complexity_max) := by
  refine ⟨?_, ?_, ?_, ?_⟩
  · intro i hi
    rw [analyzeCode]
    rw [List.getElem?_map, List.getElem?_eq_getElem hi]
    rfl
  · have hlen : 0 < m.functions.length := List.length_pos.mpr hne
    rw [analyzeCode]
    simp only [List.length_map, hlen, if_pos, foldl_add_CC]
    norm_num
  · rw [analyzeCode]
    simp only
    rcases foldl_max_mem m.functions 0 with h0 | ⟨f, hf, hEq⟩
    · match m.functions, hne, hpos, h0 with
      | g :: gs, _, hpos, h0 =>
          have hgle := (foldl_max_bounds (g :: gs) 0).2 g (by simp)
          rw [h0] at hgle
          have hgge := hpos g (by simp)
          have : g.CC = 0 := le_antisymm hgle hgge
          rw [h0, ← this]
          exact List.mem_map.mpr ⟨g, by simp, rfl⟩
    · rw [hEq]
      exact List.mem_map.mpr ⟨f, hf, rfl⟩
  · rw [analyzeCode]
    simp only
    intro x hx
    rcases List.mem_map.mp hx with ⟨f, hf, rfl⟩
    exact (foldl_max_bounds m.functions 0).2 f hf

/-- Two concrete discovered functions with scores 2 and 5. -/
def demoMetrics : Metrics :=
  ⟨10, 8, 2, [⟨"f", 3, 2, some 1, some 3⟩, ⟨"g", 2, 5, some 4, some 6⟩]⟩

/-- Witness for C9: on the concrete metrics, the mean (2+5)/2 rounds to
3.5, the maximum is 5, and the first flattened record keeps score 2, name
"f" twice, and zero placeholders. -/
theorem c9_witness :
    (analyzeCode "x.js" demoMetrics).complexity_avg = roundTo2 ((7 : ℚ) / 2)
    ∧ (analyzeCode "x.js" demoMetrics).complexity_max = 5
    ∧ (analyzeCode "x.js" demoMetrics).functions[0]? =
        some ⟨2, 3, 0, "f", "f", some 1, 0, 0⟩ := by
  have h := c9_flat_report "x.js" demoMetrics
    (by intro f hf; simp [demoMetrics] at hf; rcases hf with rfl | rfl <;> decide)
    (by simp [demoMetrics])
  refine ⟨?_, ?_, ?_⟩
  · simpa [demoMetrics] using h.2.1
  · have hmem := h.2.2.1
    have hbd := h.2.2.2 5 (by simp [demoMetrics])
    simp only [demoMetrics] at hmem hbd ⊢
    simp at hmem
    omega
  · simpa [demoMetrics] using h.1 0 (by simp [demoMetrics])

/-- C10: when the analyzed source contains zero functions, the report has
`complexity_avg = 0` and `complexity_max = 0`: the mean's division is
guarded by the `function_count > 0` check, so the zero-function case never
divides. -/
theorem c10_zero_functions (filename : String) (m : Metrics)
    (h : m.functions = []) :
    (analyzeCode filename m).complexity_avg = 0
    ∧ (analyzeCode filename m).complexity_max = 0
    ∧ (analyzeCode filename m).function_count = 0 := by
  simp [analyzeCode, h]

/-- Witness for C10: a file with lines but no functions reports zero
average and maximum complexity. -/
theorem c10_witness :
    (analyzeCode "empty.js" ⟨3, 0, 0, []⟩).complexity_avg = 0
    ∧ (analyzeCode "empty.js" ⟨3, 0, 0, []⟩).complexity_max = 0
    ∧ (analyzeCode "empty.js" ⟨3, 0, 0, []⟩).function_count = 0 :=
  c10_zero_functions "empty.js" ⟨3, 0, 0, []⟩ rfl

end JsPlugin
